import Mathlib

/-!
# LiDAR placement solver: verification of the placement pipeline

Shallow embedding of `backend/services/lidar_solver/solver.py`.

Conventions of the embedding:
* Python floats are modelled as rationals (`ℚ`).
* Calls into external libraries (`math.tan`, `math.sqrt`, `math.atan2`,
  shapely's `contains` / `is_valid` / `buffer`, and the CP-SAT solver)
  are modelled as oracle function parameters; every theorem quantifies
  over the oracle, so it holds for any behaviour of the external call.
* Python's `random.uniform` draws are modelled as a jitter stream
  `ℕ → ℚ × ℚ` (one x-jitter and one z-jitter per visited grid cell,
  in draw order).
* Unbounded `while` loops over rational counters are given an explicit
  fuel parameter; all theorems hold for every fuel value.
* Python `%` on floats (sign follows the divisor) is `pymod`;
  Python `int()` applied to a nonnegative float is `Int.toNat ∘ Int.floor`.
-/

/-- A 2D point of the floor plane, the `{x, z}` records of the source. -/
structure Pt where
  x : ℚ
  z : ℚ
  deriving DecidableEq, Repr

/-- `LidarModel` dataclass of the source. -/
structure LidarModel where
  hfov_deg : ℚ
  vfov_deg : ℚ
  range_m : ℚ
  dome_mode : Bool
  deriving DecidableEq, Repr

/-- `PlannerSettings` dataclass of the source.  `overlap_mode` is kept as a
string because the source dispatches on string equality with a fall-through
default branch. -/
structure PlannerSettings where
  mount_y_m : ℚ
  sample_spacing_m : ℚ
  candidate_spacing_m : ℚ
  keepout_distance_m : ℚ
  overlap_mode : String
  k_required : ℕ
  overlap_target_pct : ℚ
  los_enabled : Bool
  los_cell_m : ℚ
  yaw_step_deg : ℚ
  max_sensors : ℕ
  solver_time_limit_s : ℚ
  seed : ℤ
  deriving DecidableEq, Repr

/-- `Candidate` dataclass of the source. -/
structure Candidate where
  idx : ℕ
  x : ℚ
  z : ℚ
  yaw_deg : ℚ
  covered_points : List ℕ
  deriving DecidableEq, Repr

/-- `SamplePoint` dataclass of the source. -/
structure SamplePoint where
  idx : ℕ
  x : ℚ
  z : ℚ
  is_critical : Bool
  deriving DecidableEq, Repr

/-- Python's `%` on rationals: the remainder has the sign of the divisor,
`a % b = a - b * floor (a / b)`. -/
def pymod (a b : ℚ) : ℚ := a - b * ⌊a / b⌋

/-- `smallest_angle_diff` of the source:
`diff = (a - b + 180) % 360 - 180; return abs(diff)`. -/
def smallest_angle_diff (a b : ℚ) : ℚ := |pymod (a - b + 180) 360 - 180|

/-- `compute_effective_radius` of the source.  `tan_rad` is the oracle for
`math.tan (math.radians ·)` applied to half the vertical FOV. -/
def compute_effective_radius (tan_rad : ℚ → ℚ) (model : LidarModel)
    (mount_height : ℚ) : ℚ :=
  if model.dome_mode = true ∨ 360 ≤ model.hfov_deg then
    model.range_m * (9 / 10)
  else
    min model.range_m (mount_height * tan_rad (model.vfov_deg / 2))

lemma pymod_nonneg (a : ℚ) {b : ℚ} (hb : 0 < b) : 0 ≤ pymod a b := by
  have h : ((⌊a / b⌋ : ℚ)) ≤ a / b := Int.floor_le (a / b)
  have hb' : b ≠ 0 := ne_of_gt hb
  have h2 : b * (⌊a / b⌋ : ℚ) ≤ b * (a / b) :=
    mul_le_mul_of_nonneg_left h (le_of_lt hb)
  have h3 : b * (a / b) = a := by field_simp
  unfold pymod
  linarith

lemma pymod_lt (a : ℚ) {b : ℚ} (hb : 0 < b) : pymod a b < b := by
  have h : a / b < (⌊a / b⌋ : ℚ) + 1 := Int.lt_floor_add_one (a / b)
  have hb' : b ≠ 0 := ne_of_gt hb
  have h2 : b * (a / b) < b * ((⌊a / b⌋ : ℚ) + 1) :=
    mul_lt_mul_of_pos_left h hb
  have h3 : b * (a / b) = a := by field_simp
  unfold pymod
  nlinarith

/-- Uniqueness of the floor-mod representation. -/
lemma pymod_eq_of (a r : ℚ) (k : ℤ) (hb : a = 360 * k + r) (h0 : 0 ≤ r)
    (h1 : r < 360) : pymod a 360 = r := by
  have hfloor : ⌊a / 360⌋ = k := by
    have : a / 360 = (k : ℚ) + r / 360 := by rw [hb]; ring
    rw [this, Int.floor_int_add]
    have : ⌊r / 360⌋ = 0 := by
      rw [Int.floor_eq_zero_iff]
      constructor
      · positivity
      · rw [div_lt_one (by norm_num : (0:ℚ) < 360)]; simpa using h1
    omega
  unfold pymod
  rw [hfloor, hb]
  ring

lemma pymod_add_360 (a : ℚ) : pymod (a + 360) 360 = pymod a 360 := by
  have h0 : 0 ≤ pymod a 360 := pymod_nonneg a (by norm_num)
  have h1 : pymod a 360 < 360 := pymod_lt a (by norm_num)
  have hrep : a + 360 = 360 * ((⌊a / 360⌋ + 1 : ℤ) : ℚ) + pymod a 360 := by
    unfold pymod; push_cast; ring
  exact pymod_eq_of _ _ (⌊a / 360⌋ + 1) hrep h0 h1

lemma pymod_sub_360 (a : ℚ) : pymod (a - 360) 360 = pymod a 360 := by
  have := pymod_add_360 (a - 360)
  simpa using this.symm

lemma pymod_self_repr (a : ℚ) : a = 360 * ⌊a / 360⌋ + pymod a 360 := by
  unfold pymod; ring

/-- Reflection rule for the floor-mod: `pymod (-x) 360` is `0` when
`pymod x 360 = 0`, and `360 - pymod x 360` otherwise. -/
lemma pymod_neg (x : ℚ) :
    pymod (-x) 360 = if pymod x 360 = 0 then 0 else 360 - pymod x 360 := by
  have h0 : 0 ≤ pymod x 360 := pymod_nonneg x (by norm_num)
  have h1 : pymod x 360 < 360 := pymod_lt x (by norm_num)
  have hrep := pymod_self_repr x
  by_cases hzero : pymod x 360 = 0
  · rw [if_pos hzero]
    refine pymod_eq_of _ _ (-⌊x / 360⌋) ?_ le_rfl (by norm_num)
    rw [hzero] at hrep
    push_cast
    linarith
  · rw [if_neg hzero]
    refine pymod_eq_of _ _ (-⌊x / 360⌋ - 1) ?_ (by linarith) (by
      have : 0 < pymod x 360 := lt_of_le_of_ne h0 (Ne.symm hzero)
      linarith)
    push_cast
    linarith

/-- C8: `smallest_angle_diff` lies in `[0, 180]`, is commutative, and is
invariant under adding `360` to either argument. -/
theorem claim_smallest_angle_diff_props (a b : ℚ) :
    (0 ≤ smallest_angle_diff a b ∧ smallest_angle_diff a b ≤ 180) ∧
    smallest_angle_diff a b = smallest_angle_diff b a ∧
    smallest_angle_diff (a + 360) b = smallest_angle_diff a b ∧
    smallest_angle_diff a (b + 360) = smallest_angle_diff a b := by
  have range : ∀ u v : ℚ,
      0 ≤ smallest_angle_diff u v ∧ smallest_angle_diff u v ≤ 180 := by
    intro u v
    have h0 : 0 ≤ pymod (u - v + 180) 360 := pymod_nonneg _ (by norm_num)
    have h1 : pymod (u - v + 180) 360 < 360 := pymod_lt _ (by norm_num)
    unfold smallest_angle_diff
    constructor
    · exact abs_nonneg _
    · rw [abs_le]; constructor <;> linarith
  refine ⟨range a b, ?_, ?_, ?_⟩
  · -- commutativity via the reflection rule
    unfold smallest_angle_diff
    have hflip : b - a + 180 = -(a - b + 180) + 360 := by ring
    rw [hflip, pymod_add_360, pymod_neg]
    by_cases hzero : pymod (a - b + 180) 360 = 0
    · rw [if_pos hzero, hzero]
    · rw [if_neg hzero]
      have : 360 - pymod (a - b + 180) 360 - 180 =
          -(pymod (a - b + 180) 360 - 180) := by ring
      rw [this, abs_neg]
  · unfold smallest_angle_diff
    have : a + 360 - b + 180 = (a - b + 180) + 360 := by ring
    rw [this, pymod_add_360]
  · unfold smallest_angle_diff
    have : a - (b + 360) + 180 = (a - b + 180) - 360 := by ring
    rw [this, pymod_sub_360]

/-- C1: the effective radius is `0.9 · range` for dome / full-HFOV models and
`min (range, mount_height · tan (vfov / 2))` otherwise, for every tangent
oracle. -/
theorem claim_compute_effective_radius (tan_rad : ℚ → ℚ) (model : LidarModel)
    (mount_height : ℚ) :
    (model.dome_mode = true ∨ 360 ≤ model.hfov_deg →
      compute_effective_radius tan_rad model mount_height =
        (9 / 10) * model.range_m) ∧
    (model.dome_mode = false → model.hfov_deg < 360 →
      compute_effective_radius tan_rad model mount_height =
        min model.range_m (mount_height * tan_rad (model.vfov_deg / 2))) := by
  constructor
  · intro h
    unfold compute_effective_radius
    rw [if_pos h]
    ring
  · intro hdome hfov
    unfold compute_effective_radius
    rw [if_neg]
    push_neg
    exact ⟨by simp [hdome], hfov⟩

/-- Witness for C1: a dome model with range 10 gets effective radius 9. -/
theorem claim_compute_effective_radius_witness :
    compute_effective_radius (fun q => q) ⟨360, 30, 10, true⟩ 3 =
      (9 / 10) * 10 :=
  (claim_compute_effective_radius (fun q => q) ⟨360, 30, 10, true⟩ 3).1
    (Or.inl rfl)

/-! ## Bounding boxes and grid scans -/

/-- `min(v['x'] for v in polygon)`; an empty polygon (which raises in the
source) is given the value 0. -/
def minXOf : List Pt → ℚ
  | [] => 0
  | v :: rest => rest.foldl (fun m w => min m w.x) v.x

/-- `max(v['x'] for v in polygon)`. -/
def maxXOf : List Pt → ℚ
  | [] => 0
  | v :: rest => rest.foldl (fun m w => max m w.x) v.x

/-- `min(v['z'] for v in polygon)`. -/
def minZOf : List Pt → ℚ
  | [] => 0
  | v :: rest => rest.foldl (fun m w => min m w.z) v.z

/-- `max(v['z'] for v in polygon)`. -/
def maxZOf : List Pt → ℚ
  | [] => 0
  | v :: rest => rest.foldl (fun m w => max m w.z) v.z

/-- `np.arange(start, stop, step)` for a positive rational step. -/
def arange (start stop step : ℚ) : List ℚ :=
  (List.range (Int.toNat ⌈(stop - start) / step⌉)).map
    (fun i => start + (i : ℚ) * step)

/-- The obstacle polygons the source keeps: at least 3 vertices and valid
according to the geometry library (`isValid` oracle). -/
def valid_obstacles (isValid : List Pt → Bool) (obstacles : List (List Pt)) :
    List (List Pt) :=
  obstacles.filter (fun o => decide (3 ≤ o.length) && isValid o)

/-- Membership in the union of the keepout-buffered valid obstacles.
`bufContains o k p` is the oracle for `Polygon(o).buffer(k).contains(p)`. -/
def keepout_union_contains (isValid : List Pt → Bool)
    (bufContains : List Pt → ℚ → Pt → Bool) (obstacles : List (List Pt))
    (keepout : ℚ) (p : Pt) : Bool :=
  (valid_obstacles isValid obstacles).any (fun o => bufContains o keepout p)

/-- Inner `for yaw in yaw_angles` loop of `generate_candidates`: one
candidate per yaw with consecutive indices. -/
def emit_yaws (x z : ℚ) : List ℚ → ℕ → List Candidate
  | [], _ => []
  | y :: rest, idx => ⟨idx, x, z, y, []⟩ :: emit_yaws x z rest (idx + 1)

/-- Inner `while z <= max_z` loop of `generate_candidates`. -/
def gen_cand_z (accept : Pt → Bool) (yaws : List ℚ) (spacing max_z : ℚ) :
    ℕ → ℚ → ℚ → ℕ → List Candidate × ℕ
  | 0, _, _, idx => ([], idx)
  | fuel + 1, x, z, idx =>
    if z ≤ max_z then
      if accept ⟨x, z⟩ then
        let here := emit_yaws x z yaws idx
        let rest := gen_cand_z accept yaws spacing max_z fuel x (z + spacing)
          (idx + yaws.length)
        (here ++ rest.1, rest.2)
      else gen_cand_z accept yaws spacing max_z fuel x (z + spacing) idx
    else ([], idx)

/-- Outer `while x <= max_x` loop of `generate_candidates`. -/
def gen_cand_x (accept : Pt → Bool) (yaws : List ℚ)
    (spacing max_x min_z max_z : ℚ) (fuelZ : ℕ) :
    ℕ → ℚ → ℕ → List Candidate × ℕ
  | 0, _, idx => ([], idx)
  | fuel + 1, x, idx =>
    if x ≤ max_x then
      let inner := gen_cand_z accept yaws spacing max_z fuelZ x
        (min_z + spacing / 2) idx
      let rest := gen_cand_x accept yaws spacing max_x min_z max_z fuelZ fuel
        (x + spacing) inner.2
      (inner.1 ++ rest.1, rest.2)
    else ([], idx)

/-- `generate_candidates` of the source.  The yaw step of the non-dome branch
is the literal `30.0` of the source (`yaw_step = 30.0  # Default step`); the
function receives no yaw-step input at all. -/
def generate_candidates (contains : List Pt → Pt → Bool)
    (isValid : List Pt → Bool) (bufContains : List Pt → ℚ → Pt → Bool)
    (polygon : List Pt) (spacing_m keepout_m : ℚ) (model : LidarModel)
    (obstacles : List (List Pt)) (fuelX fuelZ : ℕ) : List Candidate :=
  let min_x := minXOf polygon
  let max_x := maxXOf polygon
  let min_z := minZOf polygon
  let max_z := maxZOf polygon
  let yaw_angles :=
    if 360 ≤ model.hfov_deg ∨ model.dome_mode = true then [(0 : ℚ)]
    else arange 0 360 30
  let accept := fun (p : Pt) =>
    contains polygon p &&
      !(keepout_union_contains isValid bufContains obstacles keepout_m p)
  (gen_cand_x accept yaw_angles spacing_m max_x min_z max_z fuelZ fuelX
    (min_x + spacing_m / 2) 0).1

/-- `mark_critical_points` of the source, with the in-place mutation of the
point list rendered as a map.  `contains cp p` is the oracle for
`Polygon(cp).contains(Point p)`, i.e. strict interior membership. -/
def mark_critical_points (contains : List Pt → Pt → Bool)
    (points : List SamplePoint) (critical_polygon : Option (List Pt))
    (boundary_band_m : ℚ) : List SamplePoint :=
  match critical_polygon with
  | none => points
  | some cp =>
    if 3 ≤ cp.length then
      points.map (fun p =>
        if contains cp ⟨p.x, p.z⟩ then { p with is_critical := true } else p)
    else points

/-- C2 (code evaluated at the failing input): with a partial-FOV model on a
10×10 square the generator emits the hardcoded yaw fan 0,30,…,330; a yaw-step
setting of 45° (which would demand 45 ∈ yaws) is ignored because the function
never reads it. -/
theorem claim_generate_candidates_yaw_hardcoded :
    ((generate_candidates (fun _ _ => true) (fun _ => true) (fun _ _ _ => false)
        [⟨0, 0⟩, ⟨10, 0⟩, ⟨10, 10⟩, ⟨0, 10⟩] 20 (1 / 2) ⟨90, 30, 10, false⟩
        [] 2 2).map (fun c => c.yaw_deg) =
      [0, 30, 60, 90, 120, 150, 180, 210, 240, 270, 300, 330]) ∧
    (45 : ℚ) ∉
      ((generate_candidates (fun _ _ => true) (fun _ => true) (fun _ _ _ => false)
        [⟨0, 0⟩, ⟨10, 0⟩, ⟨10, 10⟩, ⟨0, 10⟩] 20 (1 / 2) ⟨90, 30, 10, false⟩
        [] 2 2).map (fun c => c.yaw_deg)) := by
  norm_num [generate_candidates, gen_cand_x, gen_cand_z, emit_yaws, arange,
    minXOf, maxXOf, minZOf, maxZOf, keepout_union_contains, valid_obstacles,
    List.range_succ]

/-- C10: `mark_critical_points` preserves list length and the `idx`, `x`, `z`
fields of every point; `is_critical` can only change from `false` to `true`
and only for points strictly inside a present critical polygon with at least
3 vertices; an absent or degenerate critical polygon modifies nothing. -/
theorem claim_mark_critical_points_frame (contains : List Pt → Pt → Bool)
    (points : List SamplePoint) (critical_polygon : Option (List Pt))
    (band : ℚ) :
    (mark_critical_points contains points critical_polygon band).length =
      points.length ∧
    (∀ i p q, points.get? i = some p →
      (mark_critical_points contains points critical_polygon band).get? i =
        some q →
      q.idx = p.idx ∧ q.x = p.x ∧ q.z = p.z ∧
        (q.is_critical = p.is_critical ∨
          (p.is_critical = false ∧ q.is_critical = true ∧
            ∃ cp, critical_polygon = some cp ∧ 3 ≤ cp.length ∧
              contains cp ⟨p.x, p.z⟩ = true))) ∧
    (critical_polygon = none →
      mark_critical_points contains points critical_polygon band = points) ∧
    (∀ cp, critical_polygon = some cp → cp.length < 3 →
      mark_critical_points contains points critical_polygon band = points) := by
  cases critical_polygon with
  | none =>
    refine ⟨rfl, ?_, fun _ => rfl, ?_⟩
    · intro i p q hp hq
      simp only [mark_critical_points] at hq
      rw [hp] at hq
      injection hq with h
      subst h
      exact ⟨rfl, rfl, rfl, Or.inl rfl⟩
    · intro cp hcp
      cases hcp
  | some cp =>
    by_cases hlen : 3 ≤ cp.length
    · have hres : mark_critical_points contains points (some cp) band =
          points.map (fun p =>
            if contains cp ⟨p.x, p.z⟩ then { p with is_critical := true }
            else p) := by
        simp only [mark_critical_points, if_pos hlen]
      refine ⟨?_, ?_, ?_, ?_⟩
      · rw [hres]; exact List.length_map _ _
      · intro i p q hp hq
        rw [hres, List.get?_map, hp] at hq
        simp only [Option.map_some'] at hq
        injection hq with h
        subst h
        by_cases hc : contains cp ⟨p.x, p.z⟩ = true
        · rw [if_pos hc]
          by_cases hcrit : p.is_critical = true
          · exact ⟨rfl, rfl, rfl, Or.inl (by simp [hcrit])⟩
          · refine ⟨rfl, rfl, rfl, Or.inr ⟨?_, rfl, cp, rfl, hlen, hc⟩⟩
            simpa using hcrit
        · rw [if_neg hc]
          exact ⟨rfl, rfl, rfl, Or.inl rfl⟩
      · intro h; cases h
      · intro cp' hcp' hlt
        injection hcp' with h
        subst h
        exact absurd hlen (by omega)
    · have hres : mark_critical_points contains points (some cp) band =
          points := by simp only [mark_critical_points, if_neg hlen]
      refine ⟨?_, ?_, ?_, ?_⟩
      · rw [hres]
      · intro i p q hp hq
        rw [hres, hp] at hq
        injection hq with h
        subst h
        exact ⟨rfl, rfl, rfl, Or.inl rfl⟩
      · intro h; cases h
      · intro cp' hcp' hlt
        exact hres

/-- Witness for C10: a point outside any critical polygon is returned
unchanged. -/
theorem claim_mark_critical_points_frame_witness :
    mark_critical_points (fun _ _ => true) [⟨0, 1, 2, false⟩] none 0 =
      [⟨0, 1, 2, false⟩] :=
  (claim_mark_critical_points_frame (fun _ _ => true) [⟨0, 1, 2, false⟩]
    none 0).2.2.1 rfl

/-! ## Jittered-grid sampler -/

/-- Membership in the union of the valid obstacle polygons (no buffering),
as built by `sample_points_in_polygon`. -/
def obstacle_union_contains (contains : List Pt → Pt → Bool)
    (isValid : List Pt → Bool) (obstacles : List (List Pt)) (p : Pt) : Bool :=
  (valid_obstacles isValid obstacles).any (fun o => contains o p)

/-- Inner `while z <= max_z` loop of `sample_points_in_polygon`.  `n` counts
visited grid cells (one jitter pair is consumed per cell, accepted or not),
`idx` is the next sample index. -/
def sample_z (contains : List Pt → Pt → Bool) (inObs : Pt → Bool)
    (jitter : ℕ → ℚ × ℚ) (polygon : List Pt) (spacing max_z : ℚ) :
    ℕ → ℚ → ℚ → ℕ → ℕ → List SamplePoint × ℕ × ℕ
  | 0, _, _, n, idx => ([], n, idx)
  | fuel + 1, x, z, n, idx =>
    if z ≤ max_z then
      let jx := x + (jitter n).1
      let jz := z + (jitter n).2
      if contains polygon ⟨jx, jz⟩ && !inObs ⟨jx, jz⟩ then
        let rest := sample_z contains inObs jitter polygon spacing max_z fuel
          x (z + spacing) (n + 1) (idx + 1)
        (⟨idx, jx, jz, false⟩ :: rest.1, rest.2)
      else
        sample_z contains inObs jitter polygon spacing max_z fuel x
          (z + spacing) (n + 1) idx
    else ([], n, idx)

/-- Outer `while x <= max_x` loop of `sample_points_in_polygon`. -/
def sample_x (contains : List Pt → Pt → Bool) (inObs : Pt → Bool)
    (jitter : ℕ → ℚ × ℚ) (polygon : List Pt)
    (spacing max_x min_z max_z : ℚ) (fuelZ : ℕ) :
    ℕ → ℚ → ℕ → ℕ → List SamplePoint × ℕ × ℕ
  | 0, _, n, idx => ([], n, idx)
  | fuel + 1, x, n, idx =>
    if x ≤ max_x then
      let inner := sample_z contains inObs jitter polygon spacing max_z fuelZ
        x (min_z + spacing / 2) n idx
      let rest := sample_x contains inObs jitter polygon spacing max_x min_z
        max_z fuelZ fuel (x + spacing) inner.2.1 inner.2.2
      (inner.1 ++ rest.1, rest.2)
    else ([], n, idx)

/-- `sample_points_in_polygon` of the source: jittered-grid sampling inside
the ROI polygon, excluding the union of the valid obstacle polygons. -/
def sample_points_in_polygon (contains : List Pt → Pt → Bool)
    (isValid : List Pt → Bool) (jitter : ℕ → ℚ × ℚ) (polygon : List Pt)
    (spacing_m : ℚ) (obstacles : List (List Pt)) (fuelX fuelZ : ℕ) :
    List SamplePoint :=
  let min_x := minXOf polygon
  let max_x := maxXOf polygon
  let min_z := minZOf polygon
  let max_z := maxZOf polygon
  let inObs := obstacle_union_contains contains isValid obstacles
  (sample_x contains inObs jitter polygon spacing_m max_x min_z max_z fuelZ
    fuelX (min_x + spacing_m / 2) 0 0).1

lemma sample_z_spec (contains : List Pt → Pt → Bool) (inObs : Pt → Bool)
    (jitter : ℕ → ℚ × ℚ) (polygon : List Pt) (spacing max_z : ℚ) :
    ∀ (fuel : ℕ) (x z : ℚ) (n idx : ℕ),
      (∀ p ∈ (sample_z contains inObs jitter polygon spacing max_z
          fuel x z n idx).1,
        contains polygon ⟨p.x, p.z⟩ = true ∧ inObs ⟨p.x, p.z⟩ = false) ∧
      (sample_z contains inObs jitter polygon spacing max_z
          fuel x z n idx).1.map (fun p => p.idx) =
        List.range' idx (sample_z contains inObs jitter polygon spacing max_z
          fuel x z n idx).1.length ∧
      (sample_z contains inObs jitter polygon spacing max_z
          fuel x z n idx).2.2 =
        idx + (sample_z contains inObs jitter polygon spacing max_z
          fuel x z n idx).1.length := by
  intro fuel
  induction fuel with
  | zero => intro x z n idx; exact ⟨fun p hp => absurd hp (by simp [sample_z]),
      by simp [sample_z], by simp [sample_z]⟩
  | succ fuel ih =>
    intro x z n idx
    by_cases hz : z ≤ max_z
    · by_cases hacc : contains polygon ⟨x + (jitter n).1, z + (jitter n).2⟩ &&
          !inObs ⟨x + (jitter n).1, z + (jitter n).2⟩
      · have hstep : sample_z contains inObs jitter polygon spacing max_z
            (fuel + 1) x z n idx =
            (⟨idx, x + (jitter n).1, z + (jitter n).2, false⟩ ::
              (sample_z contains inObs jitter polygon spacing max_z fuel
                x (z + spacing) (n + 1) (idx + 1)).1,
              (sample_z contains inObs jitter polygon spacing max_z fuel
                x (z + spacing) (n + 1) (idx + 1)).2) := by
          simp only [sample_z, if_pos hz, if_pos hacc]
        obtain ⟨ihmem, ihmap, ihidx⟩ := ih x (z + spacing) (n + 1) (idx + 1)
        rw [hstep]
        refine ⟨?_, ?_, ?_⟩
        · intro p hp
          rcases List.mem_cons.mp hp with hhead | htail
          · subst hhead
            have h1 := (Bool.and_eq_true _ _).mp hacc
            exact ⟨h1.1, by simpa using h1.2⟩
          · exact ihmem p htail
        · simp only [List.map_cons, List.length_cons, List.range'_succ]
          exact congrArg _ ihmap
        · simpa [Nat.add_comm, Nat.add_assoc, Nat.add_left_comm] using ihidx
      · have hstep : sample_z contains inObs jitter polygon spacing max_z
            (fuel + 1) x z n idx =
            sample_z contains inObs jitter polygon spacing max_z fuel x
              (z + spacing) (n + 1) idx := by
          simp only [sample_z, if_pos hz, if_neg hacc]
        rw [hstep]
        exact ih x (z + spacing) (n + 1) idx
    · have hstep : sample_z contains inObs jitter polygon spacing max_z
          (fuel + 1) x z n idx = ([], n, idx) := by
        simp only [sample_z, if_neg hz]
      rw [hstep]
      exact ⟨fun p hp => absurd hp (by simp), by simp, by simp⟩

lemma sample_x_spec (contains : List Pt → Pt → Bool) (inObs : Pt → Bool)
    (jitter : ℕ → ℚ × ℚ) (polygon : List Pt)
    (spacing max_x min_z max_z : ℚ) (fuelZ : ℕ) :
    ∀ (fuel : ℕ) (x : ℚ) (n idx : ℕ),
      (∀ p ∈ (sample_x contains inObs jitter polygon spacing max_x min_z max_z
          fuelZ fuel x n idx).1,
        contains polygon ⟨p.x, p.z⟩ = true ∧ inObs ⟨p.x, p.z⟩ = false) ∧
      (sample_x contains inObs jitter polygon spacing max_x min_z max_z
          fuelZ fuel x n idx).1.map (fun p => p.idx) =
        List.range' idx (sample_x contains inObs jitter polygon spacing max_x
          min_z max_z fuelZ fuel x n idx).1.length ∧
      (sample_x contains inObs jitter polygon spacing max_x min_z max_z
          fuelZ fuel x n idx).2.2 =
        idx + (sample_x contains inObs jitter polygon spacing max_x min_z
          max_z fuelZ fuel x n idx).1.length := by
  intro fuel
  induction fuel with
  | zero => intro x n idx; exact ⟨fun p hp => absurd hp (by simp [sample_x]),
      by simp [sample_x], by simp [sample_x]⟩
  | succ fuel ih =>
    intro x n idx
    by_cases hx : x ≤ max_x
    · have hstep : sample_x contains inObs jitter polygon spacing max_x min_z
          max_z fuelZ (fuel + 1) x n idx =
          ((sample_z contains inObs jitter polygon spacing max_z fuelZ x
              (min_z + spacing / 2) n idx).1 ++
            (sample_x contains inObs jitter polygon spacing max_x min_z max_z
              fuelZ fuel (x + spacing)
              (sample_z contains inObs jitter polygon spacing max_z fuelZ x
                (min_z + spacing / 2) n idx).2.1
              (sample_z contains inObs jitter polygon spacing max_z fuelZ x
                (min_z + spacing / 2) n idx).2.2).1,
            (sample_x contains inObs jitter polygon spacing max_x min_z max_z
              fuelZ fuel (x + spacing)
              (sample_z contains inObs jitter polygon spacing max_z fuelZ x
                (min_z + spacing / 2) n idx).2.1
              (sample_z contains inObs jitter polygon spacing max_z fuelZ x
                (min_z + spacing / 2) n idx).2.2).2) := by
        simp only [sample_x, if_pos hx]
      obtain ⟨zmem, zmap, zidx⟩ := sample_z_spec contains inObs jitter polygon
        spacing max_z fuelZ x (min_z + spacing / 2) n idx
      obtain ⟨xmem, xmap, xidx⟩ := ih (x + spacing)
        (sample_z contains inObs jitter polygon spacing max_z fuelZ x
          (min_z + spacing / 2) n idx).2.1
        (sample_z contains inObs jitter polygon spacing max_z fuelZ x
          (min_z + spacing / 2) n idx).2.2
      rw [hstep]
      refine ⟨?_, ?_, ?_⟩
      · intro p hp
        rcases List.mem_append.mp hp with h | h
        · exact zmem p h
        · exact xmem p h
      · rw [List.map_append, zmap, xmap, zidx, List.length_append]
        rw [List.range'_append_1, Nat.add_comm]
      · rw [xidx, zidx, List.length_append]
        omega
    · have hstep : sample_x contains inObs jitter polygon spacing max_x min_z
          max_z fuelZ (fuel + 1) x n idx = ([], n, idx) := by
        simp only [sample_x, if_neg hx]
      rw [hstep]
      exact ⟨fun p hp => absurd hp (by simp), by simp, by simp⟩

/-- C7: every sample returned by the sampler satisfies the ROI containment
test and fails the obstacle-union test (for every containment oracle, jitter
stream and fuel), and the indices are exactly `0, 1, 2, …` in list order. -/
theorem claim_sample_points_in_polygon_props (contains : List Pt → Pt → Bool)
    (isValid : List Pt → Bool) (jitter : ℕ → ℚ × ℚ) (polygon : List Pt)
    (spacing_m : ℚ) (obstacles : List (List Pt)) (fuelX fuelZ : ℕ) :
    (∀ p ∈ sample_points_in_polygon contains isValid jitter polygon spacing_m
        obstacles fuelX fuelZ,
      contains polygon ⟨p.x, p.z⟩ = true ∧
        ∀ o ∈ valid_obstacles isValid obstacles,
          contains o ⟨p.x, p.z⟩ = false) ∧
    (sample_points_in_polygon contains isValid jitter polygon spacing_m
        obstacles fuelX fuelZ).map (fun p => p.idx) =
      List.range (sample_points_in_polygon contains isValid jitter polygon
        spacing_m obstacles fuelX fuelZ).length := by
  obtain ⟨hmem, hmap, _⟩ := sample_x_spec contains
    (obstacle_union_contains contains isValid obstacles) jitter polygon
    spacing_m (maxXOf polygon) (minZOf polygon) (maxZOf polygon) fuelZ fuelX
    (minXOf polygon + spacing_m / 2) 0 0
  constructor
  · intro p hp
    have h := hmem p hp
    refine ⟨h.1, ?_⟩
    intro o ho
    have hu := h.2
    unfold obstacle_union_contains at hu
    by_contra hoc
    have : (valid_obstacles isValid obstacles).any
        (fun o => contains o ⟨p.x, p.z⟩) = true :=
      List.any_eq_true.mpr ⟨o, ho, by
        cases hval : contains o ⟨p.x, p.z⟩ with
        | true => rfl
        | false => exact absurd hval hoc⟩
    rw [this] at hu
    cases hu
  · rw [List.range_eq_range']
    exact hmap

/-- The constant-true containment oracle used by concrete instances. -/
def contains0 : List Pt → Pt → Bool := fun _ _ => true

/-- Witness for C7: on a 2×2 square with spacing 1 and zero jitter, the first
returned sample passes the containment tests. -/
theorem claim_sample_points_in_polygon_props_witness :
    contains0 [⟨0, 0⟩, ⟨2, 0⟩, ⟨2, 2⟩, ⟨0, 2⟩]
        (⟨(⟨0, 1/2, 1/2, false⟩ : SamplePoint).x,
          (⟨0, 1/2, 1/2, false⟩ : SamplePoint).z⟩ : Pt) = true ∧
      ∀ o ∈ valid_obstacles (fun _ => true) ([] : List (List Pt)),
        contains0 o (⟨(1 : ℚ)/2, (1 : ℚ)/2⟩ : Pt) = false :=
  (claim_sample_points_in_polygon_props contains0 (fun _ => true)
      (fun _ => (0, 0)) [⟨0, 0⟩, ⟨2, 0⟩, ⟨2, 2⟩, ⟨0, 2⟩] 1 [] 3 3).1
    ⟨0, 1/2, 1/2, false⟩
    (by norm_num [sample_points_in_polygon, sample_x, sample_z, minXOf,
      maxXOf, minZOf, maxZOf, obstacle_union_contains, valid_obstacles,
      contains0])

/-! ## Pruner -/

/-- `candidate_map = {c.idx: c for c in candidates}`: a later candidate with
the same index overwrites an earlier one, hence the lookup scans the reversed
list. -/
def candidate_map (candidates : List Candidate) (i : ℕ) : Option Candidate :=
  candidates.reverse.find? (fun c => c.idx == i)

/-- Covered-point list of the candidate with index `i` (empty when the index
is unknown, which cannot happen in the pipeline). -/
def covered_of (candidates : List Candidate) (i : ℕ) : List ℕ :=
  match candidate_map candidates i with
  | some c => c.covered_points
  | none => []

/-- Per-point cover count over a set of selected candidate indices, the
`coverage_count` dictionary of the pruner. -/
def coverage_count (candidates : List Candidate) (sel : Finset ℕ) (p : ℕ) :
    ℕ :=
  ∑ i ∈ sel, (covered_of candidates i).count p

/-- The constraint re-check of `prune_redundant_sensors`: every sample point
must keep its required cover count (`k` everywhere, `k`/1 in critical-only
mode, and plain 1-coverage in the fall-through branch used by
`percent_target`). -/
def prune_valid (candidates : List Candidate) (points : List SamplePoint)
    (settings : PlannerSettings) (sel : Finset ℕ) : Bool :=
  points.all (fun p =>
    if settings.overlap_mode = "everywhere" then
      decide (settings.k_required ≤ coverage_count candidates sel p.idx)
    else if settings.overlap_mode = "critical_only" then
      decide ((if p.is_critical then settings.k_required else 1) ≤
        coverage_count candidates sel p.idx)
    else
      decide (1 ≤ coverage_count candidates sel p.idx))

/-- The `for idx in list(selected)` loop of `prune_redundant_sensors`:
tentatively erase each index and commit when the constraints still hold. -/
def prune_loop (candidates : List Candidate) (points : List SamplePoint)
    (settings : PlannerSettings) : List ℕ → Finset ℕ → Finset ℕ
  | [], sel => sel
  | i :: rest, sel =>
    if prune_valid candidates points settings (sel.erase i) then
      prune_loop candidates points settings rest (sel.erase i)
    else
      prune_loop candidates points settings rest sel

/-- `prune_redundant_sensors` of the source.  The Python version iterates a
set snapshot in unspecified order; the embedding iterates the deduplicated
input list and returns the selected set. -/
def prune_redundant_sensors (selected_indices : List ℕ)
    (candidates : List Candidate) (points : List SamplePoint)
    (settings : PlannerSettings) : Finset ℕ :=
  prune_loop candidates points settings selected_indices.dedup
    selected_indices.toFinset

lemma prune_loop_subset (candidates : List Candidate)
    (points : List SamplePoint) (settings : PlannerSettings) :
    ∀ (l : List ℕ) (sel : Finset ℕ),
      prune_loop candidates points settings l sel ⊆ sel := by
  intro l
  induction l with
  | nil => intro sel; exact Finset.Subset.refl _
  | cons i rest ih =>
    intro sel
    show prune_loop candidates points settings (i :: rest) sel ⊆ sel
    rw [prune_loop]
    by_cases h : prune_valid candidates points settings (sel.erase i) = true
    · rw [if_pos h]
      exact (ih (sel.erase i)).trans (Finset.erase_subset i sel)
    · rw [if_neg h]
      exact ih sel

lemma coverage_count_mono (candidates : List Candidate) {s t : Finset ℕ}
    (h : s ⊆ t) (p : ℕ) :
    coverage_count candidates s p ≤ coverage_count candidates t p :=
  Finset.sum_le_sum_of_subset h

lemma prune_valid_mono (candidates : List Candidate)
    (points : List SamplePoint) (settings : PlannerSettings)
    {s t : Finset ℕ} (hsub : s ⊆ t)
    (hs : prune_valid candidates points settings s = true) :
    prune_valid candidates points settings t = true := by
  unfold prune_valid at hs ⊢
  rw [List.all_eq_true] at hs ⊢
  intro p hp
  have h := hs p hp
  simp only at h ⊢
  have hmono := coverage_count_mono candidates hsub p.idx
  by_cases h1 : settings.overlap_mode = "everywhere"
  · rw [if_pos h1] at h ⊢
    rw [decide_eq_true_iff] at h ⊢
    exact le_trans h hmono
  · rw [if_neg h1] at h ⊢
    by_cases h2 : settings.overlap_mode = "critical_only"
    · rw [if_pos h2] at h ⊢
      rw [decide_eq_true_iff] at h ⊢
      exact le_trans h hmono
    · rw [if_neg h2] at h ⊢
      rw [decide_eq_true_iff] at h ⊢
      exact le_trans h hmono

lemma prune_loop_reject (candidates : List Candidate)
    (points : List SamplePoint) (settings : PlannerSettings) :
    ∀ (l : List ℕ) (sel : Finset ℕ) (i : ℕ),
      i ∈ prune_loop candidates points settings l sel → i ∈ l →
      prune_valid candidates points settings
        ((prune_loop candidates points settings l sel).erase i) = false := by
  intro l
  induction l with
  | nil => intro sel i _ hil; cases hil
  | cons i0 rest ih =>
    intro sel i hires hil
    by_cases hvalid :
        prune_valid candidates points settings (sel.erase i0) = true
    · have hres : prune_loop candidates points settings (i0 :: rest) sel =
          prune_loop candidates points settings rest (sel.erase i0) := by
        rw [prune_loop, if_pos hvalid]
      by_cases hrest : i ∈ rest
      · rw [hres] at hires ⊢
        exact ih (sel.erase i0) i hires hrest
      · have hi0 : i = i0 := by
          rcases List.mem_cons.mp hil with h | h
          · exact h
          · exact absurd h hrest
        subst hi0
        rw [hres] at hires
        have : i ∈ sel.erase i :=
          prune_loop_subset candidates points settings rest (sel.erase i) hires
        exact absurd this (Finset.not_mem_erase i sel)
    · have hres : prune_loop candidates points settings (i0 :: rest) sel =
          prune_loop candidates points settings rest sel := by
        rw [prune_loop, if_neg hvalid]
      by_cases hrest : i ∈ rest
      · rw [hres] at hires ⊢
        exact ih sel i hires hrest
      · have hi0 : i = i0 := by
          rcases List.mem_cons.mp hil with h | h
          · exact h
          · exact absurd h hrest
        subst hi0
        rw [hres] at hires ⊢
        have hsub : (prune_loop candidates points settings rest sel).erase i ⊆
            sel.erase i :=
          Finset.erase_subset_erase i
            (prune_loop_subset candidates points settings rest sel)
        cases hval2 : prune_valid candidates points settings
            ((prune_loop candidates points settings rest sel).erase i) with
        | false => rfl
        | true =>
          exact absurd (prune_valid_mono candidates points settings hsub hval2)
            (by simp [hvalid])

lemma prune_loop_noop (candidates : List Candidate)
    (points : List SamplePoint) (settings : PlannerSettings) (sel : Finset ℕ)
    (hrej : ∀ i ∈ sel,
      prune_valid candidates points settings (sel.erase i) = false) :
    ∀ l : List ℕ, prune_loop candidates points settings l sel = sel := by
  intro l
  induction l with
  | nil => rfl
  | cons i0 rest ih =>
    by_cases hmem : i0 ∈ sel
    · rw [prune_loop, if_neg (by rw [hrej i0 hmem]; simp)]
      exact ih
    · have herase : sel.erase i0 = sel := Finset.erase_eq_of_not_mem hmem
      rw [prune_loop, herase]
      by_cases hvalid : prune_valid candidates points settings sel = true
      · rw [if_pos hvalid]; exact ih
      · rw [if_neg hvalid]; exact ih

/-- C6: the pruner is idempotent — feeding its own output (in any list
order) back through the pruner changes nothing. -/
theorem claim_prune_redundant_sensors_idempotent (selected_indices : List ℕ)
    (candidates : List Candidate) (points : List SamplePoint)
    (settings : PlannerSettings) (l : List ℕ)
    (hl : l.toFinset =
      prune_redundant_sensors selected_indices candidates points settings) :
    prune_redundant_sensors l candidates points settings =
      prune_redundant_sensors selected_indices candidates points settings := by
  have hrej : ∀ i ∈ prune_redundant_sensors selected_indices candidates points
      settings,
      prune_valid candidates points settings
        ((prune_redundant_sensors selected_indices candidates points
          settings).erase i) = false := by
    intro i hi
    have hsub : prune_redundant_sensors selected_indices candidates points
        settings ⊆ selected_indices.toFinset :=
      prune_loop_subset candidates points settings selected_indices.dedup
        selected_indices.toFinset
    have hmem_l : i ∈ selected_indices.dedup := by
      have hm := hsub hi
      rw [List.mem_toFinset] at hm
      exact List.mem_dedup.mpr hm
    exact prune_loop_reject candidates points settings selected_indices.dedup
      selected_indices.toFinset i hi hmem_l
  unfold prune_redundant_sensors at hrej hl ⊢
  rw [hl]
  exact prune_loop_noop candidates points settings _ hrej l.dedup

/-- The `PlannerSettings` defaults of the source dataclass. -/
def default_settings : PlannerSettings :=
  ⟨3, 3/4, 2, 1/2, "everywhere", 2, 4/5, false, 1/4, 30, 50, 10, 42⟩

/-- Witness for C6: pruning `[0, 1]` with no sample points removes both
sensors, and pruning the resulting empty selection is a no-op. -/
theorem claim_prune_redundant_sensors_idempotent_witness :
    prune_redundant_sensors [] [] [] default_settings =
      prune_redundant_sensors [0, 1] [] [] default_settings :=
  claim_prune_redundant_sensors_idempotent [0, 1] [] [] default_settings []
    (by decide)

/-! ## Occupancy grid, line of sight, coverage sets -/

/-- The `bounds` dictionary of `build_obstacle_grid`. -/
structure GridBounds where
  min_x : ℚ
  max_x : ℚ
  min_z : ℚ
  max_z : ℚ
  deriving DecidableEq, Repr

/-- The boolean occupancy grid: `np.zeros((height, width), dtype=bool)` plus
the marking loop, with the cell contents as a function. -/
structure OccGrid where
  height : ℕ
  width : ℕ
  cell : ℕ → ℕ → Bool

/-- Python `int()` on a rational: truncation toward zero. -/
def pytrunc (q : ℚ) : ℤ := if 0 ≤ q then ⌊q⌋ else -⌊-q⌋

/-- `build_obstacle_grid` of the source.  The dimensions use Python
`int()` = floor on the nonnegative box extents; cell `(r, c)` is marked iff
its center lies inside some valid obstacle (`contains` oracle). -/
def build_obstacle_grid (contains : List Pt → Pt → Bool)
    (isValid : List Pt → Bool) (polygon : List Pt)
    (obstacles : List (List Pt)) (cell_size : ℚ) : OccGrid × GridBounds :=
  let min_x := minXOf polygon
  let max_x := maxXOf polygon
  let min_z := minZOf polygon
  let max_z := maxZOf polygon
  let width := Int.toNat ⌊(max_x - min_x) / cell_size⌋ + 1
  let height := Int.toNat ⌊(max_z - min_z) / cell_size⌋ + 1
  (⟨height, width, fun row col =>
      (valid_obstacles isValid obstacles).any (fun o =>
        contains o ⟨min_x + ((col : ℚ) + 1 / 2) * cell_size,
          min_z + ((row : ℚ) + 1 / 2) * cell_size⟩)⟩,
    ⟨min_x, max_x, min_z, max_z⟩)

/-- The `for i in range(1, steps)` ray march of `check_los_blocked`. -/
def los_march (g : OccGrid) (b : GridBounds) (cell_size cx cz dx dz : ℚ)
    (steps : ℕ) : ℕ → ℕ → Bool
  | _, 0 => false
  | i, fuel + 1 =>
    if i < steps then
      let t : ℚ := (i : ℚ) / (steps : ℚ)
      let x := cx + dx * t
      let z := cz + dz * t
      let col := pytrunc ((x - b.min_x) / cell_size)
      let row := pytrunc ((z - b.min_z) / cell_size)
      if 0 ≤ row ∧ row < (g.height : ℤ) ∧ 0 ≤ col ∧ col < (g.width : ℤ) then
        if g.cell row.toNat col.toNat then true
        else los_march g b cell_size cx cz dx dz steps (i + 1) fuel
      else los_march g b cell_size cx cz dx dz steps (i + 1) fuel
    else false

/-- `check_los_blocked` of the source.  `sqrtQ` is the oracle for
`math.sqrt`; the grid and its bounds travel together as in the pipeline, and
a missing grid returns `False` immediately. -/
def check_los_blocked (sqrtQ : ℚ → ℚ) (cx cz px pz : ℚ)
    (grid : Option (OccGrid × GridBounds)) (cell_size : ℚ) : Bool :=
  match grid with
  | none => false
  | some (g, b) =>
    let dx := px - cx
    let dz := pz - cz
    let dist := sqrtQ (dx * dx + dz * dz)
    if dist < 1 / 100 then false
    else
      let steps := Int.toNat (pytrunc (dist / (cell_size * (1 / 2)))) + 1
      los_march g b cell_size cx cz dx dz steps 1 steps

/-- The grid-construction guard of `solve_lidar_placement`:
`if settings.los_enabled and obstacles:` — an empty obstacle list leaves the
grid as `None` even with LOS enabled. -/
def los_grid_option (contains : List Pt → Pt → Bool)
    (isValid : List Pt → Bool) (los_enabled : Bool) (polygon : List Pt)
    (obstacles : List (List Pt)) (los_cell_m : ℚ) :
    Option (OccGrid × GridBounds) :=
  if los_enabled && !obstacles.isEmpty then
    some (build_obstacle_grid contains isValid polygon obstacles los_cell_m)
  else none

/-- `compute_coverage_sets` of the source: a point is covered by a candidate
iff it passes the range test, the HFOV wedge test (partial-FOV models only)
and the LOS test (only when LOS is enabled and a grid is present).
`atan2deg` is the oracle for `math.degrees(math.atan2 · ·)`. -/
def compute_coverage_sets (sqrtQ : ℚ → ℚ) (atan2deg : ℚ → ℚ → ℚ)
    (candidates : List Candidate) (points : List SamplePoint)
    (model : LidarModel) (r_eff : ℚ) (los_enabled : Bool)
    (grid : Option (OccGrid × GridBounds)) (los_cell_m : ℚ) :
    List Candidate :=
  candidates.map (fun c =>
    { c with covered_points := points.filterMap (fun p =>
        let dx := p.x - c.x
        let dz := p.z - c.z
        let dist := sqrtQ (dx * dx + dz * dz)
        if r_eff < dist then none
        else if (model.hfov_deg < 360 ∧ model.dome_mode = false) ∧
            model.hfov_deg / 2 <
              smallest_angle_diff (atan2deg dz dx) c.yaw_deg then none
        else if los_enabled && grid.isSome &&
            check_los_blocked sqrtQ c.x c.z p.x p.z grid los_cell_m then none
        else some p.idx) })

/-- C4 counterexample: on a unit-height box with cell 0.4 the source
allocates `floor(Δz/cell) + 1 = 3` rows, not the claimed
`ceil(Δz/cell) + 1 = 4`. -/
theorem claim_build_obstacle_grid_ceil_cex :
    (build_obstacle_grid contains0 (fun _ => true)
        [⟨0, 0⟩, ⟨1, 0⟩, ⟨1, 1⟩, ⟨0, 1⟩] [] (2 / 5)).1.height ≠
      Int.toNat ⌈(maxZOf [⟨0, 0⟩, ⟨1, 0⟩, ⟨1, 1⟩, ⟨0, 1⟩] -
        minZOf [⟨0, 0⟩, ⟨1, 0⟩, ⟨1, 1⟩, ⟨0, 1⟩]) / (2 / 5)⌉ + 1 := by
  have hceil : (⌈(5 : ℚ) / 2⌉ : ℤ) = 3 := by
    rw [Int.ceil_eq_iff] <;> norm_num
  norm_num [build_obstacle_grid, minXOf, maxXOf, minZOf, maxZOf, hceil]
  decide

/-- C4 (amended): the grid over the ROI bounding box has
`rows = ⌊Δz/cell⌋ + 1` and `cols = ⌊Δx/cell⌋ + 1` (floor, not ceiling), and
cell `(r, c)` is marked true iff its center
`(min_x + (c+0.5)·cell, min_z + (r+0.5)·cell)` lies inside some valid
obstacle polygon. -/
theorem claim_build_obstacle_grid_amended (contains : List Pt → Pt → Bool)
    (isValid : List Pt → Bool) (polygon : List Pt)
    (obstacles : List (List Pt)) (cell_size : ℚ) :
    (build_obstacle_grid contains isValid polygon obstacles
        cell_size).1.height =
      Int.toNat ⌊(maxZOf polygon - minZOf polygon) / cell_size⌋ + 1 ∧
    (build_obstacle_grid contains isValid polygon obstacles
        cell_size).1.width =
      Int.toNat ⌊(maxXOf polygon - minXOf polygon) / cell_size⌋ + 1 ∧
    (build_obstacle_grid contains isValid polygon obstacles cell_size).2 =
      ⟨minXOf polygon, maxXOf polygon, minZOf polygon, maxZOf polygon⟩ ∧
    ∀ r c : ℕ,
      (build_obstacle_grid contains isValid polygon obstacles
          cell_size).1.cell r c = true ↔
        ∃ o ∈ obstacles, 3 ≤ o.length ∧ isValid o = true ∧
          contains o ⟨minXOf polygon + ((c : ℚ) + 1 / 2) * cell_size,
            minZOf polygon + ((r : ℚ) + 1 / 2) * cell_size⟩ = true := by
  refine ⟨rfl, rfl, rfl, ?_⟩
  intro r c
  show (valid_obstacles isValid obstacles).any _ = true ↔ _
  rw [List.any_eq_true]
  constructor
  · rintro ⟨o, ho, hc⟩
    rw [valid_obstacles, List.mem_filter] at ho
    have hcond := ho.2
    rw [Bool.and_eq_true, decide_eq_true_iff] at hcond
    exact ⟨o, ho.1, hcond.1, hcond.2, hc⟩
  · rintro ⟨o, ho, hlen, hval, hc⟩
    refine ⟨o, ?_, hc⟩
    rw [valid_obstacles, List.mem_filter]
    exact ⟨ho, by rw [Bool.and_eq_true, decide_eq_true_iff]; exact ⟨hlen, hval⟩⟩

/-- Witness for C4: with no obstacles no cell of the grid is marked. -/
theorem claim_build_obstacle_grid_amended_witness :
    (build_obstacle_grid contains0 (fun _ => true)
        [⟨0, 0⟩, ⟨1, 0⟩, ⟨1, 1⟩, ⟨0, 1⟩] [] (2 / 5)).1.cell 0 0 ≠ true := by
  have h := (claim_build_obstacle_grid_amended contains0 (fun _ => true)
    [⟨0, 0⟩, ⟨1, 0⟩, ⟨1, 1⟩, ⟨0, 1⟩] [] (2 / 5)).2.2.2 0 0
  intro hc
  obtain ⟨o, ho, -⟩ := h.mp hc
  cases ho

/-- C9: with an empty obstacle list the pipeline builds no occupancy grid
even when LOS is enabled, `check_los_blocked` answers `False` for every pair
given a `None` grid, and the resulting coverage sets are identical to a run
with LOS disabled — line of sight is silently not enforced. -/
theorem claim_empty_obstacles_skip_los (contains : List Pt → Pt → Bool)
    (isValid : List Pt → Bool) (sqrtQ : ℚ → ℚ) (atan2deg : ℚ → ℚ → ℚ)
    (polygon : List Pt) (los_cell_m : ℚ) (candidates : List Candidate)
    (points : List SamplePoint) (model : LidarModel) (r_eff : ℚ)
    (cx cz px pz : ℚ) :
    los_grid_option contains isValid true polygon [] los_cell_m = none ∧
    check_los_blocked sqrtQ cx cz px pz none los_cell_m = false ∧
    compute_coverage_sets sqrtQ atan2deg candidates points model r_eff true
        none los_cell_m =
      compute_coverage_sets sqrtQ atan2deg candidates points model r_eff false
        none los_cell_m := by
  exact ⟨rfl, rfl, rfl⟩

/-! ## Solve phase: CP solve, relaxation retry, failure result -/

/-- Outcome of the solve phase of `solve_lidar_placement`: either the
failure dictionary returned when both solves fail, or the data the pipeline
continues with. -/
inductive SolvePhase where
  | failed (error : String) (selected_positions : List (ℚ × ℚ × ℚ))
      (num_sensors : ℕ) (warnings : List String)
  | proceed (selected_indices : List ℕ) (solver_status : String)
      (warnings : List String)
  deriving DecidableEq, Repr

/-- The relaxed settings built on the retry:
`PlannerSettings(**settings.__dict__)` with `k_required = 1` and
`overlap_mode = "everywhere"`; every other field is copied. -/
def relaxed_settings (settings : PlannerSettings) : PlannerSettings :=
  { settings with k_required := 1, overlap_mode := "everywhere" }

/-- Lines 681–704 of `solve_lidar_placement`: run `solve_k_coverage` (the
`solveK` oracle returns `(selected_indices, solver_status, success)`), on
failure append the warning, relax and retry once, and on a second failure
return the failure dictionary with the solver status in the error text. -/
def run_solve_phase
    (solveK : PlannerSettings → List ℕ × String × Bool)
    (settings : PlannerSettings) : SolvePhase :=
  let r1 := solveK settings
  if r1.2.2 then .proceed r1.1 r1.2.1 []
  else
    let warnings := ["Initial solve failed (" ++ r1.2.1 ++
      "), relaxing to k=1"]
    let r2 := solveK (relaxed_settings settings)
    if r2.2.2 then .proceed r2.1 r2.2.1 warnings
    else .failed ("Solver failed: " ++ r2.2.1) [] 0 warnings

/-- C5: whenever the first solve fails, the phase retries exactly once with
`k_required = 1` and `overlap_mode = "everywhere"` (all other settings
unchanged) after appending the warning; if the retry also fails the result
is the failure record with the solver status in the error message, an empty
position list and zero sensors. -/
theorem claim_solve_retry_on_infeasible
    (solveK : PlannerSettings → List ℕ × String × Bool)
    (settings : PlannerSettings)
    (hfail : (solveK settings).2.2 = false) :
    relaxed_settings settings =
      { settings with k_required := 1, overlap_mode := "everywhere" } ∧
    run_solve_phase solveK settings =
      (if (solveK (relaxed_settings settings)).2.2 then
        SolvePhase.proceed (solveK (relaxed_settings settings)).1
          (solveK (relaxed_settings settings)).2.1
          ["Initial solve failed (" ++ (solveK settings).2.1 ++
            "), relaxing to k=1"]
      else
        SolvePhase.failed
          ("Solver failed: " ++ (solveK (relaxed_settings settings)).2.1)
          [] 0
          ["Initial solve failed (" ++ (solveK settings).2.1 ++
            "), relaxing to k=1"]) := by
  refine ⟨rfl, ?_⟩
  unfold run_solve_phase
  rw [if_neg (by rw [hfail]; simp)]

/-- Witness for C5: an oracle that always fails makes the phase return the
failure record after the single relaxed retry. -/
theorem claim_solve_retry_on_infeasible_witness :
    run_solve_phase (fun _ => ([], "INFEASIBLE", false)) default_settings =
      SolvePhase.failed "Solver failed: INFEASIBLE" [] 0
        ["Initial solve failed (INFEASIBLE), relaxing to k=1"] := by
  have h := (claim_solve_retry_on_infeasible
    (fun _ => ([], "INFEASIBLE", false)) default_settings rfl).2
  simpa using h

/-! ## Yaw refiner -/

/-- `round(q, 4)` of the source, on rationals (rounding half away from the
tie like Mathlib `round`; Python rounds ties to even, which differs only at
exact half-of-a-ten-thousandth ties). -/
def round4 (q : ℚ) : ℚ := ((round (q * 10000) : ℤ) : ℚ) / 10000

/-- The position key `(round(c.x, 4), round(c.z, 4))`. -/
def pos_key (c : Candidate) : ℚ × ℚ := (round4 c.x, round4 c.z)

/-- One step of the `positions` dictionary construction: append the
candidate to its key's group, or create the group at the end. -/
def add_to_groups : List ((ℚ × ℚ) × List Candidate) → (ℚ × ℚ) → Candidate →
    List ((ℚ × ℚ) × List Candidate)
  | [], key, c => [(key, [c])]
  | (k, g) :: rest, key, c =>
    if k = key then (k, g ++ [c]) :: rest
    else (k, g) :: add_to_groups rest key c

/-- The `for c in pos_candidates` maximum scan: strict improvement only, so
the first maximum wins. -/
def pick_best_yaw : ℚ → ℕ → List Candidate → ℚ
  | cy, _, [] => cy
  | cy, cc, c :: rest =>
    if cc < c.covered_points.length then
      pick_best_yaw c.yaw_deg c.covered_points.length rest
    else pick_best_yaw cy cc rest

/-- The candidates the refiner actually groups: the *selected* indices
resolved through `candidate_map`. -/
def sel_cands (selected_indices : List ℕ) (candidates : List Candidate) :
    List Candidate :=
  selected_indices.filterMap (candidate_map candidates)

/-- `refine_yaw_angles` of the source.  The returned dictionary is an
association list in insertion order.  `points` and `r_eff` are accepted and
ignored exactly as in the source. -/
def refine_yaw_angles (selected_indices : List ℕ)
    (candidates : List Candidate) (points : List SamplePoint)
    (model : LidarModel) (r_eff : ℚ) : List (ℕ × ℚ) :=
  if 360 ≤ model.hfov_deg ∨ model.dome_mode = true then []
  else
    let groups := (sel_cands selected_indices candidates).foldl
      (fun acc c => add_to_groups acc (pos_key c) c) []
    (groups.map (fun g =>
      match g.2 with
      | [] => []
      | g0 :: _ =>
        g.2.map (fun c =>
          (c.idx, pick_best_yaw g0.yaw_deg g0.covered_points.length g.2)))).join

/-- C3 counterexample: candidate 1 shares the rounded position of selected
candidate 0 and covers strictly more points with yaw 90, yet the refiner
(which only groups *selected* variants) keeps yaw 0 for entry 0 — the claim
that non-selected variants at the position are considered is false. -/
theorem claim_refine_yaw_nonselected_cex :
    refine_yaw_angles [0]
        [⟨0, 0, 0, 0, [0]⟩, ⟨1, 0, 0, 90, [0, 1, 2]⟩] [] ⟨90, 30, 10, false⟩
        9 = [(0, 0)] ∧
    pos_key ⟨0, 0, 0, 0, [0]⟩ = pos_key ⟨1, 0, 0, 90, [0, 1, 2]⟩ ∧
    (Candidate.covered_points ⟨0, 0, 0, 0, [0]⟩).length <
      (Candidate.covered_points ⟨1, 0, 0, 90, [0, 1, 2]⟩).length ∧
    (0 : ℚ) ≠ 90 := by
  refine ⟨?_, ?_, ?_, ?_⟩
  · have hsel : sel_cands [0]
        [⟨0, 0, 0, 0, [0]⟩, ⟨1, 0, 0, 90, [0, 1, 2]⟩] =
        [⟨0, 0, 0, 0, [0]⟩] := by
      simp [sel_cands, candidate_map, List.find?]
    simp only [refine_yaw_angles, hsel]
    rw [if_neg (by norm_num)]
    simp [add_to_groups, pos_key, round4, pick_best_yaw]
  · norm_num [pos_key, round4]
  · norm_num
  · norm_num

/-- Group contents associated to a key (first matching entry). -/
def group_val : List ((ℚ × ℚ) × List Candidate) → (ℚ × ℚ) → List Candidate
  | [], _ => []
  | (k, g) :: rest, key => if k = key then g else group_val rest key

/-- The selected candidates sharing a rounded position. -/
def pos_group (selected_indices : List ℕ) (candidates : List Candidate)
    (key : ℚ × ℚ) : List Candidate :=
  (sel_cands selected_indices candidates).filter
    (fun c => decide (pos_key c = key))

lemma group_val_add (acc : List ((ℚ × ℚ) × List Candidate)) (key : ℚ × ℚ)
    (c : Candidate) (k : ℚ × ℚ) :
    group_val (add_to_groups acc key c) k =
      if k = key then group_val acc k ++ [c] else group_val acc k := by
  induction acc with
  | nil =>
    by_cases h : k = key
    · subst h; simp [add_to_groups, group_val]
    · have h' : ¬key = k := fun hh => h hh.symm
      simp [add_to_groups, group_val, h, h']
  | cons hd rest ih =>
    obtain ⟨k0, g0⟩ := hd
    by_cases h0 : k0 = key
    · simp only [add_to_groups, if_pos h0]
      by_cases h2 : k0 = k
      · have hk : k = key := h2 ▸ h0
        simp [group_val, h2, hk]
      · have hk : ¬k = key := fun hh => h2 (h0.trans hh.symm)
        simp [group_val, h2, hk]
    · simp only [add_to_groups, if_neg h0]
      by_cases h2 : k0 = k
      · have hk : ¬k = key := fun hh => h0 (h2.trans hh)
        simp [group_val, h2, hk]
      · simp [group_val, h2, ih]

lemma group_val_foldl (l : List Candidate) :
    ∀ (acc : List ((ℚ × ℚ) × List Candidate)) (k : ℚ × ℚ),
      group_val (l.foldl (fun acc c => add_to_groups acc (pos_key c) c) acc)
          k =
        group_val acc k ++ l.filter (fun c => decide (pos_key c = k)) := by
  induction l with
  | nil => intro acc k; simp
  | cons c l ih =>
    intro acc k
    rw [List.foldl_cons, ih, group_val_add, List.filter_cons]
    by_cases h : k = pos_key c
    · rw [if_pos h, if_pos (by simp [h.symm])]
      simp
    · rw [if_neg h, if_neg (by simp; exact fun hh => h hh.symm)]

lemma group_keys_add (acc : List ((ℚ × ℚ) × List Candidate)) (key : ℚ × ℚ)
    (c : Candidate) :
    (add_to_groups acc key c).map Prod.fst =
      if key ∈ acc.map Prod.fst then acc.map Prod.fst
      else acc.map Prod.fst ++ [key] := by
  induction acc with
  | nil => simp [add_to_groups]
  | cons hd rest ih =>
    obtain ⟨k0, g0⟩ := hd
    by_cases h0 : k0 = key
    · simp [add_to_groups, h0]
    · have hne : ¬key = k0 := fun hh => h0 hh.symm
      simp only [add_to_groups, if_neg h0, List.map_cons, List.mem_cons, ih]
      by_cases hmem : key ∈ rest.map Prod.fst
      · rw [if_pos hmem, if_pos (Or.inr hmem)]
      · rw [if_neg hmem, if_neg (by rintro (h | h); exact hne h; exact hmem h)]
        simp

lemma nodup_keys_add (acc : List ((ℚ × ℚ) × List Candidate)) (key : ℚ × ℚ)
    (c : Candidate) (h : (acc.map Prod.fst).Nodup) :
    ((add_to_groups acc key c).map Prod.fst).Nodup := by
  rw [group_keys_add]
  by_cases hmem : key ∈ acc.map Prod.fst
  · rw [if_pos hmem]; exact h
  · rw [if_neg hmem, List.nodup_append_comm, List.singleton_append,
      List.nodup_cons]
    exact ⟨hmem, h⟩

lemma nodup_keys_foldl (l : List Candidate) :
    ∀ acc : List ((ℚ × ℚ) × List Candidate), (acc.map Prod.fst).Nodup →
      ((l.foldl (fun acc c => add_to_groups acc (pos_key c) c) acc).map
        Prod.fst).Nodup := by
  induction l with
  | nil => intro acc h; exact h
  | cons c l ih =>
    intro acc h
    rw [List.foldl_cons]
    exact ih _ (nodup_keys_add acc (pos_key c) c h)

lemma mem_group_val (acc : List ((ℚ × ℚ) × List Candidate))
    (h : (acc.map Prod.fst).Nodup) (k : ℚ × ℚ) (g : List Candidate)
    (hm : (k, g) ∈ acc) : group_val acc k = g := by
  induction acc with
  | nil => cases hm
  | cons hd rest ih =>
    obtain ⟨k0, g0⟩ := hd
    rw [List.map_cons, List.nodup_cons] at h
    rcases List.mem_cons.mp hm with heq | hrest
    · have hk : k = k0 := congrArg Prod.fst heq
      have hg : g = g0 := congrArg Prod.snd heq
      show (if k0 = k then g0 else group_val rest k) = g
      rw [if_pos hk.symm, hg]
    · have hkmem : k ∈ rest.map Prod.fst :=
        List.mem_map.mpr ⟨(k, g), hrest, rfl⟩
      have hk0 : ¬k0 = k := fun he => h.1 (he ▸ hkmem)
      show (if k0 = k then g0 else group_val rest k) = g
      rw [if_neg hk0]
      exact ih h.2 hrest

lemma pick_best_yaw_spec (l : List Candidate) : ∀ (cy : ℚ) (cc : ℕ),
    (pick_best_yaw cy cc l = cy ∧
      ∀ c ∈ l, c.covered_points.length ≤ cc) ∨
    (∃ j c, l.get? j = some c ∧ pick_best_yaw cy cc l = c.yaw_deg ∧
      cc < c.covered_points.length ∧
      (∀ c' ∈ l, c'.covered_points.length ≤ c.covered_points.length) ∧
      ∀ j' c', j' < j → l.get? j' = some c' →
        c'.covered_points.length < c.covered_points.length) := by
  induction l with
  | nil =>
    intro cy cc
    left
    exact ⟨rfl, fun c hc => absurd hc (List.not_mem_nil c)⟩
  | cons c0 rest ih =>
    intro cy cc
    by_cases hgt : cc < c0.covered_points.length
    · have hstep : pick_best_yaw cy cc (c0 :: rest) =
          pick_best_yaw c0.yaw_deg c0.covered_points.length rest := by
        simp [pick_best_yaw, hgt]
      rcases ih c0.yaw_deg c0.covered_points.length with
        ⟨hres, hall⟩ | ⟨j, cbest, hj, hres, hlt, hall, hearl⟩
      · right
        refine ⟨0, c0, rfl, by rw [hstep, hres], hgt, ?_, ?_⟩
        · intro c' hc'
          rcases List.mem_cons.mp hc' with rfl | hmem
          · exact le_refl _
          · exact hall c' hmem
        · intro j' c' hj' _
          omega
      · right
        refine ⟨j + 1, cbest, by simpa using hj, by rw [hstep, hres],
          lt_trans hgt hlt, ?_, ?_⟩
        · intro c' hc'
          rcases List.mem_cons.mp hc' with rfl | hmem
          · exact le_of_lt hlt
          · exact hall c' hmem
        · intro j' c' hj' hget
          cases j' with
          | zero =>
            have : c' = c0 := by simpa using hget.symm
            subst this
            exact hlt
          | succ j'' =>
            exact hearl j'' c' (by omega) (by simpa using hget)
    · have hstep : pick_best_yaw cy cc (c0 :: rest) =
          pick_best_yaw cy cc rest := by
        simp [pick_best_yaw, hgt]
      rcases ih cy cc with
        ⟨hres, hall⟩ | ⟨j, cbest, hj, hres, hlt, hall, hearl⟩
      · left
        refine ⟨by rw [hstep, hres], ?_⟩
        intro c' hc'
        rcases List.mem_cons.mp hc' with rfl | hmem
        · omega
        · exact hall c' hmem
      · right
        refine ⟨j + 1, cbest, by simpa using hj, by rw [hstep, hres], hlt,
          ?_, ?_⟩
        · intro c' hc'
          rcases List.mem_cons.mp hc' with rfl | hmem
          · exact le_of_lt (lt_of_le_of_lt (not_lt.mp hgt) hlt)
          · exact hall c' hmem
        · intro j' c' hj' hget
          cases j' with
          | zero =>
            have : c' = c0 := by simpa using hget.symm
            subst this
            exact lt_of_le_of_lt (not_lt.mp hgt) hlt
          | succ j'' =>
            exact hearl j'' c' (by omega) (by simpa using hget)

lemma pick_best_group (g0 : Candidate) (t : List Candidate) :
    ∃ j c', (g0 :: t).get? j = some c' ∧
      pick_best_yaw g0.yaw_deg g0.covered_points.length (g0 :: t) =
        c'.yaw_deg ∧
      (∀ c'' ∈ g0 :: t,
        c''.covered_points.length ≤ c'.covered_points.length) ∧
      ∀ j' c'', j' < j → (g0 :: t).get? j' = some c'' →
        c''.covered_points.length < c'.covered_points.length := by
  rcases pick_best_yaw_spec (g0 :: t) g0.yaw_deg g0.covered_points.length
    with ⟨hres, hall⟩ | ⟨j, c, hj, hres, _, hall, hearl⟩
  · exact ⟨0, g0, rfl, hres, hall, fun j' c'' hj' _ => absurd hj' (by omega)⟩
  · exact ⟨j, c, hj, hres, hall, hearl⟩


lemma group_val_mem_of_ne_nil (acc : List ((ℚ × ℚ) × List Candidate))
    (k : ℚ × ℚ) (h : group_val acc k ≠ []) : (k, group_val acc k) ∈ acc := by
  induction acc with
  | nil => exact absurd rfl h
  | cons hd rest ih =>
    obtain ⟨k0, g0⟩ := hd
    by_cases h0 : k0 = k
    · subst h0
      have hval : group_val ((k0, g0) :: rest) k0 = g0 := by
        simp [group_val]
      rw [hval]
      exact List.mem_cons_self _ _
    · have hval : group_val ((k0, g0) :: rest) k = group_val rest k := by
        simp [group_val, h0]
      rw [hval] at h ⊢
      exact List.mem_cons_of_mem _ (ih h)

/-- C3 (amended): the refiner is a no-op for dome / 360° models; every entry
`(i, y)` it produces pairs the index of a *selected* candidate `c` with the
yaw of the first selected variant at `c`'s rounded position whose
`covered_points` list is largest; and conversely every selected index that
resolves to a candidate `c` receives such an entry for `c.idx`.
Non-selected variants at the position are never consulted. -/
theorem claim_refine_yaw_angles_amended (selected_indices : List ℕ)
    (candidates : List Candidate) (points : List SamplePoint)
    (model : LidarModel) (r_eff : ℚ) :
    (360 ≤ model.hfov_deg ∨ model.dome_mode = true →
      refine_yaw_angles selected_indices candidates points model r_eff =
        []) ∧
    (∀ i y,
      (i, y) ∈ refine_yaw_angles selected_indices candidates points model
        r_eff →
      ∃ c ∈ sel_cands selected_indices candidates, c.idx = i ∧
        ∃ j c',
          (pos_group selected_indices candidates (pos_key c)).get? j =
            some c' ∧
          y = c'.yaw_deg ∧
          (∀ c'' ∈ pos_group selected_indices candidates (pos_key c),
            c''.covered_points.length ≤ c'.covered_points.length) ∧
          (∀ j' c'', j' < j →
            (pos_group selected_indices candidates (pos_key c)).get? j' =
              some c'' →
            c''.covered_points.length < c'.covered_points.length)) ∧
    (∀ i ∈ selected_indices, ∀ c, candidate_map candidates i = some c →
      ¬(360 ≤ model.hfov_deg ∨ model.dome_mode = true) →
      ∃ y,
        (c.idx, y) ∈ refine_yaw_angles selected_indices candidates points
          model r_eff ∧
        ∃ j c',
          (pos_group selected_indices candidates (pos_key c)).get? j =
            some c' ∧
          y = c'.yaw_deg ∧
          (∀ c'' ∈ pos_group selected_indices candidates (pos_key c),
            c''.covered_points.length ≤ c'.covered_points.length) ∧
          (∀ j' c'', j' < j →
            (pos_group selected_indices candidates (pos_key c)).get? j' =
              some c'' →
            c''.covered_points.length < c'.covered_points.length)) := by
  refine ⟨?_, ?_, ?_⟩
  · intro h
    simp only [refine_yaw_angles, if_pos h]
  · intro i y hmem
    by_cases hcond : 360 ≤ model.hfov_deg ∨ model.dome_mode = true
    · simp only [refine_yaw_angles, if_pos hcond] at hmem
      cases hmem
    · simp only [refine_yaw_angles, if_neg hcond] at hmem
      rw [List.mem_join] at hmem
      obtain ⟨sub, hsub, hmemsub⟩ := hmem
      rw [List.mem_map] at hsub
      obtain ⟨⟨k, g⟩, hg, rfl⟩ := hsub
      have hnodup : (((sel_cands selected_indices candidates).foldl
          (fun acc c => add_to_groups acc (pos_key c) c) []).map
          Prod.fst).Nodup :=
        nodup_keys_foldl (sel_cands selected_indices candidates) []
          (by simp)
      have hgv : group_val ((sel_cands selected_indices candidates).foldl
          (fun acc c => add_to_groups acc (pos_key c) c) []) k = g :=
        mem_group_val _ hnodup k g hg
      have hgfilter : g = (sel_cands selected_indices candidates).filter
          (fun c => decide (pos_key c = k)) := by
        rw [← hgv, group_val_foldl]
        simp [group_val]
      cases g with
      | nil => simp at hmemsub
      | cons g0 t =>
        simp only [List.mem_map] at hmemsub
        obtain ⟨c, hc, hpair⟩ := hmemsub
        have hidx : c.idx = i := congrArg Prod.fst hpair
        have hyaw : pick_best_yaw g0.yaw_deg g0.covered_points.length
            (g0 :: t) = y := congrArg Prod.snd hpair
        have hcfil := hgfilter ▸ hc
        rw [List.mem_filter] at hcfil
        have hkey : pos_key c = k := of_decide_eq_true hcfil.2
        have hpg : pos_group selected_indices candidates (pos_key c) =
            g0 :: t := by
          rw [pos_group, hkey, ← hgfilter]
        obtain ⟨j, c', hj, hres, hall, hearl⟩ := pick_best_group g0 t
        refine ⟨c, hcfil.1, hidx, j, c', ?_, ?_, ?_, ?_⟩
        · rw [hpg]; exact hj
        · rw [← hyaw, hres]
        · intro c'' hc''
          rw [hpg] at hc''
          exact hall c'' hc''
        · intro j' c'' hj' hget
          rw [hpg] at hget
          exact hearl j' c'' hj' hget
  · intro i hi c hmap hcond
    have hc_sel : c ∈ sel_cands selected_indices candidates :=
      List.mem_filterMap.mpr ⟨i, hi, hmap⟩
    have hGfilter : group_val ((sel_cands selected_indices candidates).foldl
        (fun acc c => add_to_groups acc (pos_key c) c) []) (pos_key c) =
        (sel_cands selected_indices candidates).filter
          (fun c' => decide (pos_key c' = pos_key c)) := by
      rw [group_val_foldl]
      simp [group_val]
    have hcG : c ∈ group_val
        ((sel_cands selected_indices candidates).foldl
          (fun acc c => add_to_groups acc (pos_key c) c) []) (pos_key c) := by
      rw [hGfilter]
      exact List.mem_filter.mpr ⟨hc_sel, by simp⟩
    have hne : group_val ((sel_cands selected_indices candidates).foldl
        (fun acc c => add_to_groups acc (pos_key c) c) []) (pos_key c) ≠
        [] := by
      intro hnil
      rw [hnil] at hcG
      exact List.not_mem_nil c hcG
    obtain ⟨g0, t, hG⟩ := List.exists_cons_of_ne_nil hne
    have hmem_groups : (pos_key c, g0 :: t) ∈
        (sel_cands selected_indices candidates).foldl
          (fun acc c => add_to_groups acc (pos_key c) c) [] := by
      rw [← hG]
      exact group_val_mem_of_ne_nil _ _ hne
    have hpg : pos_group selected_indices candidates (pos_key c) =
        g0 :: t := by
      rw [pos_group, ← hGfilter, hG]
    have hcG' : c ∈ g0 :: t := hG ▸ hcG
    have hout : (c.idx,
        pick_best_yaw g0.yaw_deg g0.covered_points.length (g0 :: t)) ∈
        refine_yaw_angles selected_indices candidates points model r_eff := by
      simp only [refine_yaw_angles, if_neg hcond]
      rw [List.mem_join]
      refine ⟨(g0 :: t).map (fun c' =>
        (c'.idx, pick_best_yaw g0.yaw_deg g0.covered_points.length
          (g0 :: t))), ?_, ?_⟩
      · rw [List.mem_map]
        exact ⟨(pos_key c, g0 :: t), hmem_groups, rfl⟩
      · rw [List.mem_map]
        exact ⟨c, hcG', rfl⟩
    obtain ⟨j, c', hj, hres, hall, hearl⟩ := pick_best_group g0 t
    refine ⟨pick_best_yaw g0.yaw_deg g0.covered_points.length (g0 :: t),
      hout, j, c', ?_, hres, ?_, ?_⟩
    · rw [hpg]; exact hj
    · intro c'' hc''
      rw [hpg] at hc''
      exact hall c'' hc''
    · intro j' c'' hj' hget
      rw [hpg] at hget
      exact hearl j' c'' hj' hget

/-- Witness for C3: for the single selected candidate at the origin, the
output entry `(0, 0)` satisfies the soundness description, and index 0
receives an entry as the completeness part demands. -/
theorem claim_refine_yaw_angles_amended_witness :
    (∃ c ∈ sel_cands [0] [⟨0, 0, 0, 0, [0]⟩], c.idx = 0 ∧
      ∃ j c',
        (pos_group [0] [⟨0, 0, 0, 0, [0]⟩] (pos_key c)).get? j = some c' ∧
        (0 : ℚ) = c'.yaw_deg ∧
        (∀ c'' ∈ pos_group [0] [⟨0, 0, 0, 0, [0]⟩] (pos_key c),
          c''.covered_points.length ≤ c'.covered_points.length) ∧
        (∀ j' c'', j' < j →
          (pos_group [0] [⟨0, 0, 0, 0, [0]⟩] (pos_key c)).get? j' =
            some c'' →
          c''.covered_points.length < c'.covered_points.length)) ∧
    (∃ y,
      ((⟨0, 0, 0, 0, [0]⟩ : Candidate).idx, y) ∈
        refine_yaw_angles [0] [⟨0, 0, 0, 0, [0]⟩] [] ⟨90, 30, 10, false⟩ 9 ∧
      ∃ j c',
        (pos_group [0] [⟨0, 0, 0, 0, [0]⟩]
          (pos_key ⟨0, 0, 0, 0, [0]⟩)).get? j = some c' ∧
        y = c'.yaw_deg ∧
        (∀ c'' ∈ pos_group [0] [⟨0, 0, 0, 0, [0]⟩]
            (pos_key ⟨0, 0, 0, 0, [0]⟩),
          c''.covered_points.length ≤ c'.covered_points.length) ∧
        (∀ j' c'', j' < j →
          (pos_group [0] [⟨0, 0, 0, 0, [0]⟩]
            (pos_key ⟨0, 0, 0, 0, [0]⟩)).get? j' = some c'' →
          c''.covered_points.length < c'.covered_points.length)) :=
  ⟨(claim_refine_yaw_angles_amended [0] [⟨0, 0, 0, 0, [0]⟩] []
      ⟨90, 30, 10, false⟩ 9).2.1 0 0 (by
    have hsel : sel_cands [0] [⟨0, 0, 0, 0, [0]⟩] = [⟨0, 0, 0, 0, [0]⟩] := by
      simp [sel_cands, candidate_map, List.find?]
    simp only [refine_yaw_angles, hsel]
    rw [if_neg (by norm_num)]
    simp [add_to_groups, pos_key, round4, pick_best_yaw]),
   (claim_refine_yaw_angles_amended [0] [⟨0, 0, 0, 0, [0]⟩] []
      ⟨90, 30, 10, false⟩ 9).2.2 0 (by simp) ⟨0, 0, 0, 0, [0]⟩
    (by simp [candidate_map, List.find?]) (by norm_num)⟩
